import Mathlib

/-!
Verification development for the ClockifyKeypad repository.

The repository has two Python source files:

* `src/main.py`  — a HID-keypad driven timer controller: `start_timer`,
  `stop_timer`, the raw HID dispatch `on_data_handler`, plus a `Clockify`
  client class with paginated `get_projects` / `_get_project_tasks`.
* `src/gui.py`   — the same `Clockify` client plus a `Model` that holds the
  fetched project catalog behind a mutex, serves deep copies to readers
  (`Model.get_projects`, `Model.get_tasks_for_project`), and is filled by a
  background thread (`GetProjectsAndTasks.run` → `Model.cb`).

The definitions below are a shallow embedding of that code.  Network effects
are made explicit: every HTTP response the code inspects becomes an input
parameter (a status code plus a decoded body), and every HTTP request the
code issues is recorded in an output list, so that "how many POST/PUT/GET
calls were made" is a provable statement.  Printing is pure I/O with no
effect on state and is not modelled.
-/

/-- Mirrors the `ClockifyTask` dataclass (fields `id`, `name`). -/
structure ClockifyTask where
  id : String
  name : String
deriving Repr, DecidableEq

/-- Mirrors the `ClockifyProject` dataclass (fields `id`, `name`, `tasks`). -/
structure ClockifyProject where
  id : String
  name : String
  tasks : List ClockifyTask
deriving Repr, DecidableEq

/-! ## Timer controller (`src/main.py`, lines 102–181)

The controller state is the single module-level global `_start_time`
(line 102), initially `None`.  `DESCRIPTION` and `PROJECT_ID` are
module-level configuration referenced by `start_timer`; they are modelled as
an explicit configuration record.  Python truthiness of `PROJECT_ID` is
`none`/empty-string falsy. -/

/-- The hard-coded project id used by both `start_timer` and `stop_timer`. -/
def PROJ_ID_DEFAULT : String := "67ecf1beedf9a1136e65242c"

/-- The hard-coded task id used by both `start_timer` and `stop_timer`. -/
def TASK_ID_DEFAULT : String := "67ecf1beedf9a1136e65243a"

/-- Module-level configuration (`DESCRIPTION`, `PROJECT_ID`) read by
`start_timer`. -/
structure Config where
  description : String
  projectId : Option String
deriving Repr, DecidableEq

/-- The controller state: the `_start_time` global of `src/main.py` line 102
(`none` models Python `None`). -/
structure TimerState where
  start_time : Option String
deriving Repr, DecidableEq

/-- The JSON body of the POST issued by `start_timer`. -/
structure StartPayload where
  start : String
  projectId : String
  description : String
  taskId : String
deriving Repr, DecidableEq

/-- The JSON body of the PUT issued by `stop_timer` (`"end"` is rendered here
as `endTime`; `start` is `Option` because `_start_time` may be `None`). -/
structure StopPayload where
  start : Option String
  endTime : String
  projectId : String
  taskId : String
deriving Repr, DecidableEq

/-- One element of the in-progress time-entries list returned by the remote
query in `stop_timer`.  The code reads only `entries[0]["id"]`; the
remote-reported start timestamp is carried here so that theorems can state
whether the code uses it. -/
structure RemoteEntry where
  id : String
  start : String
deriving Repr, DecidableEq

/-- The HTTP requests the timer code can issue, in the order issued. -/
inductive ApiCall where
  | postTimeEntry (payload : StartPayload)
  | getUser
  | getRunning
  | putTimeEntry (entryId : String) (payload : StopPayload)
deriving Repr, DecidableEq

/-- `start_timer` (`src/main.py` lines 104–128).  Sets `_start_time` to the
current time, builds the payload (hard-coded project/task ids, with
`PROJECT_ID` overriding the project id when truthy) and issues one POST.
The response status (`postStatus`) is only checked for printing
"Timer started." vs "Start failed"; it affects neither the state nor the
calls issued. -/
def start_timer (cfg : Config) (now : String) (st : TimerState) (postStatus : Nat) :
    TimerState × List ApiCall :=
  let start_time := now
  let payload : StartPayload :=
    { start := start_time
      projectId :=
        match cfg.projectId with
        | some s => if s = "" then PROJ_ID_DEFAULT else s
        | none => PROJ_ID_DEFAULT
      description := cfg.description
      taskId := TASK_ID_DEFAULT }
  ({ start_time := some start_time }, [ApiCall.postTimeEntry payload])

/-- The remote responses observed by one run of `stop_timer`: the status of
the `GET /user` call, the status and decoded body of the in-progress query,
and the status of the PUT (checked only for printing). -/
structure StopEnv where
  userStatus : Nat
  runningStatus : Nat
  entries : List RemoteEntry
  putStatus : Nat
deriving Repr, DecidableEq

/-- `stop_timer` (`src/main.py` lines 130–168).  Looks up the user (early
return on non-200), queries in-progress entries (early return on non-200),
returns with no PUT when the list is empty ("No timer is running."), and
otherwise PUTs an end time onto `entries[0]`, with `start` taken from the
local `_start_time` global and hard-coded project/task ids.  Note the
function declares `global _start_time` but never assigns it, so the state is
returned unchanged on every path; the PUT status is only printed. -/
def stop_timer (env : StopEnv) (now : String) (st : TimerState) :
    TimerState × List ApiCall :=
  if env.userStatus ≠ 200 then
    (st, [ApiCall.getUser])
  else if env.runningStatus ≠ 200 then
    (st, [ApiCall.getUser, ApiCall.getRunning])
  else
    match env.entries with
    | [] => (st, [ApiCall.getUser, ApiCall.getRunning])
    | e :: _ =>
      let stop_time := now
      let stop_payload : StopPayload :=
        { start := st.start_time
          endTime := stop_time
          projectId := PROJ_ID_DEFAULT
          taskId := TASK_ID_DEFAULT }
      (st, [ApiCall.getUser, ApiCall.getRunning,
            ApiCall.putTimeEntry e.id stop_payload])

/-- The environment one HID report is handled in: the wall-clock time and the
remote responses that would be observed by whichever of `start_timer` /
`stop_timer` runs. -/
structure HidEnv where
  now : String
  postStatus : Nat
  stop : StopEnv
deriving Repr, DecidableEq

/-- `on_data_handler` (`src/main.py` lines 174–181).  Device reports are
fixed-length (≥ 9 bytes), so `data[8]` never faults; byte 8 equal to 16
signals a press (→ `start_timer`), 17 a release (→ `stop_timer`), anything
else is ignored.  Byte 3 is only printed. -/
def on_data_handler (cfg : Config) (env : HidEnv) (data : List Nat)
    (st : TimerState) : TimerState × List ApiCall :=
  if data.getD 8 0 = 16 then
    start_timer cfg env.now st env.postStatus
  else if data.getD 8 0 = 17 then
    stop_timer env.stop env.now st
  else
    (st, [])

/-- Handles a sequence of HID reports in order, threading the controller
state and concatenating the issued calls. -/
def runEvents (cfg : Config) : List (HidEnv × List Nat) → TimerState →
    TimerState × List ApiCall
  | [], st => (st, [])
  | (env, data) :: rest, st =>
    let r1 := on_data_handler cfg env data st
    let r2 := runEvents cfg rest r1.1
    (r2.1, r1.2 ++ r2.2)

/-- Is this call a `startEntry` (POST time-entries)? -/
def isPost : ApiCall → Bool
  | ApiCall.postTimeEntry _ => true
  | _ => false

/-- Is this call a `stopEntry` (PUT time-entries/{id})? -/
def isPut : ApiCall → Bool
  | ApiCall.putTimeEntry _ _ => true
  | _ => false

/-- Number of `startEntry` calls in a call log. -/
def countPosts (cs : List ApiCall) : Nat := (cs.filter isPost).length

/-- Number of `stopEntry` calls in a call log. -/
def countPuts (cs : List ApiCall) : Nat := (cs.filter isPut).length

/-- The `stopEntry` calls of a call log, in order. -/
def putCalls (cs : List ApiCall) : List ApiCall := cs.filter isPut

/-- The `start` fields of the `stopEntry` payloads of a call log, in order. -/
def putStartFields (cs : List ApiCall) : List (Option String) :=
  cs.filterMap fun c =>
    match c with
    | ApiCall.putTimeEntry _ p => some p.start
    | _ => none

/-! ## Catalog fetch (`Clockify.get_projects` / `Clockify._get_project_tasks`)

Identical code appears in `src/main.py` lines 58–91 and `src/gui.py` lines
41–74.  The remote server is modelled as a pair of response functions (one
per endpoint); the embedding records the requests issued in order and
returns the outcome.  The `while True` page loop is given explicit fuel: a
`none` outcome means the loop was still running after `fuel` iterations
(the Python loop simply keeps going); every theorem below supplies enough
fuel for the run it describes.

On a non-success response the code executes
`raise RuntimeError(f"... {response.reason} ... {response.text.decode()}")`
(`main.py` lines 74 and 87; `gui.py` lines 57 and 70).  In Python 3
`response.text` is a `str`, which has no `decode` method, so formatting the
message raises `AttributeError` before the `RuntimeError` is ever
constructed: the exception that actually propagates carries neither the
response status nor its body.  The error paths below model that exception,
not the intended `RuntimeError`. -/

/-- The exception that actually escapes the fetch's error paths: the
`AttributeError` raised by `response.text.decode()` (a `str` has no
`decode` method) while the intended `RuntimeError` message is being
formatted.  It has no payload because it carries no response data — neither
the status nor the body reaches the caller. -/
inductive PyException where
  | attributeError
deriving Repr, DecidableEq

/-- One raw JSON item (`{id, name}`) of a projects page or a tasks page. -/
structure RawItem where
  id : String
  name : String
deriving Repr, DecidableEq

/-- One decoded HTTP response: the status code, the decoded item array
(meaningful on status 200), and the raw body text (`response.text`, a `str`,
which the failing raise tries — and fails — to `.decode()`). -/
structure PageResp where
  status : Nat
  items : List RawItem
  text : String
deriving Repr, DecidableEq

/-- The remote server behaviour: what each projects-page request and each
per-project tasks request returns. -/
structure Server where
  projectsPage : Nat → PageResp
  projectTasks : String → PageResp

/-- The HTTP requests the catalog fetch can issue. -/
inductive Request where
  | pageReq (page : Nat)
  | tasksReq (projectId : String)
deriving Repr, DecidableEq

/-- The response a given request receives from the server. -/
def respOf (srv : Server) : Request → PageResp
  | Request.pageReq n => srv.projectsPage n
  | Request.tasksReq pid => srv.projectTasks pid

/-- `Clockify._get_project_tasks`: one tasks-page request; on non-200 the
attempted raise crashes formatting its message (`response.text.decode()`),
so what propagates is the bare `AttributeError`; otherwise the items are
mapped into `ClockifyTask`s. -/
def Clockify.get_project_tasks (srv : Server) (pid : String) :
    List Request × Except PyException (List ClockifyTask) :=
  let resp := srv.projectTasks pid
  if resp.status = 200 then
    ([Request.tasksReq pid], Except.ok (resp.items.map fun t => ⟨t.id, t.name⟩))
  else
    ([Request.tasksReq pid], Except.error PyException.attributeError)

/-- The list comprehension in `get_projects`: builds a `ClockifyProject` per
page item, fetching each project's tasks left to right; the first tasks
failure aborts the whole comprehension (later items are not fetched). -/
def Clockify.build_projects (srv : Server) :
    List RawItem → List Request × Except PyException (List ClockifyProject)
  | [] => ([], Except.ok [])
  | it :: rest =>
    let r1 := Clockify.get_project_tasks srv it.id
    match r1.2 with
    | Except.error e => (r1.1, Except.error e)
    | Except.ok tasks =>
      match Clockify.build_projects srv rest with
      | (r2, Except.error e) => (r1.1 ++ r2, Except.error e)
      | (r2, Except.ok ps) => (r1.1 ++ r2, Except.ok (⟨it.id, it.name, tasks⟩ :: ps))

/-- The `while True` loop of `Clockify.get_projects`: `page` is incremented
at the top of each iteration, the page is requested, a non-200 status
aborts the loop with the `AttributeError` from the crashed raise, a
non-empty page extends the accumulator (fetching tasks per project), an
empty page breaks and returns the accumulator. -/
def Clockify.get_projects_loop (srv : Server) :
    Nat → Nat → List ClockifyProject →
    List Request × Option (Except PyException (List ClockifyProject))
  | 0, _, _ => ([], none)
  | fuel + 1, page, acc =>
    let p := page + 1
    let resp := srv.projectsPage p
    if resp.status = 200 then
      if 0 < resp.items.length then
        match Clockify.build_projects srv resp.items with
        | (rs, Except.error e) =>
          (Request.pageReq p :: rs, some (Except.error e))
        | (rs, Except.ok ps) =>
          let rec2 := Clockify.get_projects_loop srv fuel p (acc ++ ps)
          (Request.pageReq p :: rs ++ rec2.1, rec2.2)
      else
        ([Request.pageReq p], some (Except.ok acc))
    else
      ([Request.pageReq p], some (Except.error PyException.attributeError))

/-- `Clockify.get_projects` (`src/main.py` lines 58–76, `src/gui.py` lines
41–59): starts with an empty list and page counter 0 and runs the page
loop. -/
def Clockify.get_projects (srv : Server) (fuel : Nat) :
    List Request × Option (Except PyException (List ClockifyProject)) :=
  Clockify.get_projects_loop srv fuel 0 []

/-- The page numbers of the page requests of a request log, in order. -/
def pageReqsOf (rs : List Request) : List Nat :=
  rs.filterMap fun r =>
    match r with
    | Request.pageReq n => some n
    | Request.tasksReq _ => none

/-- The task list the server reports for a project id (assuming status 200). -/
def tasksOf (srv : Server) (pid : String) : List ClockifyTask :=
  ((srv.projectTasks pid).items).map fun t => ⟨t.id, t.name⟩

/-- The `ClockifyProject` built from one page item. -/
def projOfItem (srv : Server) (it : RawItem) : ClockifyProject :=
  ⟨it.id, it.name, tasksOf srv it.id⟩

/-- Concatenation via a function returning lists (left to right). -/
def listFlat (f : α → List β) : List α → List β
  | [] => []
  | x :: xs => f x ++ listFlat f xs

/-- The concatenation of the items of pages `1, …, n` in order. -/
def pagesItems (srv : Server) (n : Nat) : List RawItem :=
  listFlat (fun i => (srv.projectsPage (i + 1)).items) (List.range n)

/-! ## The GUI `Model` (`src/gui.py`, lines 78–136)

`Model` keeps `self._projects` — a Python list of `ClockifyProject`
dataclass instances, each holding a list of `ClockifyTask` instances — and
serves `copy.deepcopy` snapshots of it from `get_projects` and
`get_tasks_for_project`.  To make "deep copy" and "mutating the returned
value never changes the store" provable statements, Python's object graph
is modelled by an explicit heap: addresses mapped to mutable cells.  The
catalog shape gives four kinds of cell — the outer projects list, a project
instance, a project's tasks list, and a task instance — kept in four
association tables (first binding wins, so prepending a binding is an
in-place update).  `deepcopy` allocates fresh addresses; mutation rebinds
an address; `view*` reads the immutable value a root describes. -/

/-- A Python object address. -/
abbrev Addr := Nat

/-- First-match association lookup (the newest binding of an address wins). -/
def lookupA (a : Addr) : List (Addr × α) → Option α
  | [] => none
  | (k, v) :: rest => if k = a then some v else lookupA a rest

/-- The heap: four typed stores plus the next fresh address.  The typing
(projects list → project → tasks list → task) matches the catalog shape, so
the object graph is acyclic by construction. -/
structure Heap where
  projLists : List (Addr × List Addr)
  projCells : List (Addr × (String × String × Addr))
  taskLists : List (Addr × List Addr)
  taskCells : List (Addr × (String × String))
  next : Addr
deriving Repr, DecidableEq

/-- Allocate a fresh task instance. -/
def allocTaskCell (h : Heap) (v : String × String) : Heap × Addr :=
  ({ h with taskCells := (h.next, v) :: h.taskCells, next := h.next + 1 },
   h.next)

/-- Allocate a fresh tasks-list object. -/
def allocTaskList (h : Heap) (elems : List Addr) : Heap × Addr :=
  ({ h with taskLists := (h.next, elems) :: h.taskLists, next := h.next + 1 },
   h.next)

/-- Allocate a fresh project instance. -/
def allocProjCell (h : Heap) (v : String × String × Addr) : Heap × Addr :=
  ({ h with projCells := (h.next, v) :: h.projCells, next := h.next + 1 },
   h.next)

/-- Allocate a fresh projects-list object. -/
def allocProjList (h : Heap) (elems : List Addr) : Heap × Addr :=
  ({ h with projLists := (h.next, elems) :: h.projLists, next := h.next + 1 },
   h.next)

/-- Read a task instance as a value. -/
def viewTask (h : Heap) (a : Addr) : Option ClockifyTask :=
  (lookupA a h.taskCells).map fun tc => ⟨tc.1, tc.2⟩

/-- Read each address of a list through `f`, failing if any read fails. -/
def optMapList (f : Addr → Option α) : List Addr → Option (List α)
  | [] => some []
  | a :: as =>
    match f a, optMapList f as with
    | some v, some vs => some (v :: vs)
    | _, _ => none

/-- Read a tasks-list object as a value. -/
def viewTaskList (h : Heap) (a : Addr) : Option (List ClockifyTask) :=
  (lookupA a h.taskLists).bind (optMapList (viewTask h))

/-- Read a project instance as a value. -/
def viewProj (h : Heap) (a : Addr) : Option ClockifyProject :=
  match lookupA a h.projCells with
  | none => none
  | some pc => (viewTaskList h pc.2.2).map fun ts => ⟨pc.1, pc.2.1, ts⟩

/-- Read a projects-list object as a value (the whole catalog). -/
def viewProjList (h : Heap) (a : Addr) : Option (List ClockifyProject) :=
  (lookupA a h.projLists).bind (optMapList (viewProj h))

/-- The addresses reachable from a task instance. -/
def reachTask (_h : Heap) (a : Addr) : List Addr := [a]

/-- The addresses reachable from a tasks-list object. -/
def reachTaskList (h : Heap) (a : Addr) : List Addr :=
  a ::
    match lookupA a h.taskLists with
    | some elems => elems
    | none => []

/-- The addresses reachable from a project instance. -/
def reachProj (h : Heap) (a : Addr) : List Addr :=
  a ::
    match lookupA a h.projCells with
    | some pc => reachTaskList h pc.2.2
    | none => []

/-- The addresses reachable from a projects-list object. -/
def reachProjList (h : Heap) (a : Addr) : List Addr :=
  a ::
    match lookupA a h.projLists with
    | some elems => listFlat (reachProj h) elems
    | none => []

/-- `copy.deepcopy` of a task instance: a fresh cell with the same data.
`none` only on a dangling address (impossible for Python values). -/
def copyTask (h : Heap) (a : Addr) : Option (Heap × Addr) :=
  (lookupA a h.taskCells).map (allocTaskCell h)

/-- Copy each address of a list in order, threading the heap. -/
def copyAddrs (copyOne : Heap → Addr → Option (Heap × Addr)) :
    Heap → List Addr → Option (Heap × List Addr)
  | h, [] => some (h, [])
  | h, a :: as =>
    match copyOne h a with
    | none => none
    | some (h1, a1) =>
      match copyAddrs copyOne h1 as with
      | none => none
      | some (h2, as2) => some (h2, a1 :: as2)

/-- `copy.deepcopy` of a tasks-list object. -/
def copyTaskList (h : Heap) (a : Addr) : Option (Heap × Addr) :=
  match lookupA a h.taskLists with
  | none => none
  | some elems =>
    match copyAddrs copyTask h elems with
    | none => none
    | some (h1, elems1) => some (allocTaskList h1 elems1)

/-- `copy.deepcopy` of a project instance. -/
def copyProj (h : Heap) (a : Addr) : Option (Heap × Addr) :=
  match lookupA a h.projCells with
  | none => none
  | some pc =>
    match copyTaskList h pc.2.2 with
    | none => none
    | some (h1, tl1) => some (allocProjCell h1 (pc.1, pc.2.1, tl1))

/-- `copy.deepcopy` of a projects-list object (the whole catalog). -/
def copyProjList (h : Heap) (a : Addr) : Option (Heap × Addr) :=
  match lookupA a h.projLists with
  | none => none
  | some elems =>
    match copyAddrs copyProj h elems with
    | none => none
    | some (h1, elems1) => some (allocProjList h1 elems1)

/-- A mutation a caller can perform on an object it holds: rebinding one
address of one of the four stores (covers list element assignment /
append-style replacement and dataclass attribute assignment). -/
inductive Mut where
  | mutProjList (v : List Addr)
  | mutProjCell (v : String × String × Addr)
  | mutTaskList (v : List Addr)
  | mutTaskCell (v : String × String)
deriving Repr, DecidableEq

/-- Apply a mutation at an address. -/
def applyMut (h : Heap) (a : Addr) : Mut → Heap
  | Mut.mutProjList v => { h with projLists := (a, v) :: h.projLists }
  | Mut.mutProjCell v => { h with projCells := (a, v) :: h.projCells }
  | Mut.mutTaskList v => { h with taskLists := (a, v) :: h.taskLists }
  | Mut.mutTaskCell v => { h with taskCells := (a, v) :: h.taskCells }

/-- The `Model`'s state: the heap, the address bound to `self._projects`,
and the number of registered observers. -/
structure ModelState where
  heap : Heap
  projectsRoot : Addr
  observers : Nat
deriving Repr, DecidableEq

/-- `Model.__init__` (as far as state is concerned): `self._projects = []`
allocates one fresh empty list object; no observers yet.  The background
fetch the constructor launches is modelled separately by
`GetProjectsAndTasks.run`. -/
def Model.initState : ModelState :=
  let r := allocProjList ⟨[], [], [], [], 0⟩ []
  { heap := r.1, projectsRoot := r.2, observers := 0 }

/-- `Model.get_projects` (`src/gui.py` lines 123–128): under the mutex,
`copy.deepcopy(self._projects)`; returns the copy.  The lock is irrelevant
to the sequential semantics modelled here. -/
def Model.get_projects (m : ModelState) : Option (Addr × ModelState) :=
  (copyProjList m.heap m.projectsRoot).map fun r =>
    (r.2, { m with heap := r.1 })

/-- `Model.get_tasks_for_project` (`src/gui.py` lines 130–136): under the
mutex, `copy.deepcopy(project.tasks)` for the project object handed in;
returns the copy. -/
def Model.get_tasks_for_project (project : Addr) (m : ModelState) :
    Option (Addr × ModelState) :=
  match lookupA project m.heap.projCells with
  | none => none
  | some pc =>
    match copyTaskList m.heap pc.2.2 with
    | none => none
    | some r => some (r.2, { m with heap := r.1 })

/-- Allocate the task instances of a fetched value. -/
def allocTasksVal (h : Heap) : List ClockifyTask → Heap × List Addr
  | [] => (h, [])
  | t :: ts =>
    let r1 := allocTaskCell h (t.id, t.name)
    let r2 := allocTasksVal r1.1 ts
    (r2.1, r1.2 :: r2.2)

/-- Allocate one fetched project (its tasks, its tasks list, itself). -/
def allocProjVal (h : Heap) (p : ClockifyProject) : Heap × Addr :=
  let r1 := allocTasksVal h p.tasks
  let r2 := allocTaskList r1.1 r1.2
  allocProjCell r2.1 (p.id, p.name, r2.2)

/-- Allocate the project instances of a fetched value. -/
def allocProjsVal (h : Heap) : List ClockifyProject → Heap × List Addr
  | [] => (h, [])
  | p :: ps =>
    let r1 := allocProjVal h p
    let r2 := allocProjsVal r1.1 ps
    (r2.1, r1.2 :: r2.2)

/-- Materialise a fetched catalog value as heap objects. -/
def allocCatalog (h : Heap) (ps : List ClockifyProject) : Heap × Addr :=
  let r := allocProjsVal h ps
  allocProjList r.1 r.2

/-- `Model.cb` (`src/gui.py` lines 102–106): under the mutex, rebind
`self._projects` to the fetched list, then `notify_observers` invokes every
registered observer callback once.  Returns the new state and the number of
observer notifications fired. -/
def Model.cb (ps : List ClockifyProject) (m : ModelState) : ModelState × Nat :=
  let r := allocCatalog m.heap ps
  ({ m with heap := r.1, projectsRoot := r.2 }, m.observers)

/-- `GetProjectsAndTasks.run` (`src/gui.py` lines 83–88): performs the
fetch and calls `self._cb(myprojects)` with the result.  When
`get_projects` raises, the exception propagates out of the thread body:
the callback never runs, so the model state is untouched and no observer
is notified. -/
def GetProjectsAndTasks.run
    (fetched : Except PyException (List ClockifyProject))
    (m : ModelState) : ModelState × Nat :=
  match fetched with
  | Except.error _ => (m, 0)
  | Except.ok ps => Model.cb ps m


/-- A demonstration configuration for concrete runs. -/
def cfgDemo : Config := ⟨"Work", none⟩

/-- A HID report whose byte 8 is 16, i.e. a press signal. -/
def pressData : List Nat := [1, 0, 0, 35, 0, 0, 0, 0, 16]

/-- A demonstration server: one non-empty projects page, then an empty one;
one task for the single project. -/
def srvDemo : Server where
  projectsPage := fun p =>
    if p = 1 then ⟨200, [⟨"p1", "Website"⟩], ""⟩ else ⟨200, [], ""⟩
  projectTasks := fun pid =>
    if pid = "p1" then ⟨200, [⟨"t1", "Design"⟩], ""⟩ else ⟨200, [], ""⟩

/-- A demonstration server whose first projects page fails with a 500. -/
def srvFail : Server where
  projectsPage := fun _ => ⟨500, [], "boom"⟩
  projectTasks := fun _ => ⟨200, [], ""⟩

/-- A demonstration heap: one project ("p1"/"Website") with one task
("t1"/"Design"); the catalog list object lives at address 3. -/
def heapDemo : Heap where
  projLists := [(3, [2])]
  projCells := [(2, ("p1", "Website", 1))]
  taskLists := [(1, [0])]
  taskCells := [(0, ("t1", "Design"))]
  next := 4

/-- A demonstration model state over `heapDemo`. -/
def mDemo : ModelState where
  heap := heapDemo
  projectsRoot := 3
  observers := 0

/-! ## Heap lemmas: deep copies are fresh, value-equal and isolated -/

/-- Two heaps agree on every binding below an address bound. -/
def AgreeBelow (n : Nat) (h h' : Heap) : Prop :=
  ∀ a, a < n →
    lookupA a h.projLists = lookupA a h'.projLists ∧
    lookupA a h.projCells = lookupA a h'.projCells ∧
    lookupA a h.taskLists = lookupA a h'.taskLists ∧
    lookupA a h.taskCells = lookupA a h'.taskCells

/-- `h'` extends `h`: only fresh addresses were bound. -/
def HExt (h h' : Heap) : Prop := h.next ≤ h'.next ∧ AgreeBelow h.next h h'

/-- Every address of the list is below the bound. -/
def BelowAll (n : Nat) (l : List Addr) : Prop := ∀ a ∈ l, a < n

lemma listFlat_congr {f g : α → List β} :
    ∀ {l : List α}, (∀ x ∈ l, f x = g x) → listFlat f l = listFlat g l
  | [], _ => rfl
  | x :: xs, h => by
    simp only [listFlat, h x (by simp)]
    rw [listFlat_congr fun y hy => h y (by simp [hy])]

lemma listFlat_map (f : β → List γ) (g : α → β) :
    ∀ l : List α, listFlat f (l.map g) = listFlat (fun x => f (g x)) l
  | [] => rfl
  | x :: xs => by simp only [List.map_cons, listFlat, listFlat_map f g xs]

lemma lookupA_skip (a k : Addr) (w : α) (l : List (Addr × α)) (hne : k ≠ a) :
    lookupA a ((k, w) :: l) = lookupA a l := by
  simp [lookupA, hne]

lemma lookupA_head (k : Addr) (w : α) (l : List (Addr × α)) :
    lookupA k ((k, w) :: l) = some w := by
  simp [lookupA]

lemma agreeBelow_refl (n : Nat) (h : Heap) : AgreeBelow n h h :=
  fun _ _ => ⟨rfl, rfl, rfl, rfl⟩

lemma ext_refl (h : Heap) : HExt h h := ⟨le_refl _, agreeBelow_refl _ _⟩

lemma ext_trans {h1 h2 h3 : Heap} (e12 : HExt h1 h2) (e23 : HExt h2 h3) :
    HExt h1 h3 := by
  refine ⟨le_trans e12.1 e23.1, fun a ha => ?_⟩
  have g12 := e12.2 a ha
  have g23 := e23.2 a (lt_of_lt_of_le ha e12.1)
  exact ⟨g12.1.trans g23.1, g12.2.1.trans g23.2.1,
    g12.2.2.1.trans g23.2.2.1, g12.2.2.2.trans g23.2.2.2⟩

lemma allocTaskCell_ext (h : Heap) (v : String × String) :
    HExt h (allocTaskCell h v).1 := by
  refine ⟨by simp [allocTaskCell], fun a ha => ?_⟩
  refine ⟨rfl, rfl, rfl, ?_⟩
  exact (lookupA_skip a h.next v h.taskCells ha.ne').symm

lemma allocTaskList_ext (h : Heap) (elems : List Addr) :
    HExt h (allocTaskList h elems).1 := by
  refine ⟨by simp [allocTaskList], fun a ha => ?_⟩
  refine ⟨rfl, rfl, ?_, rfl⟩
  exact (lookupA_skip a h.next elems h.taskLists ha.ne').symm

lemma allocProjCell_ext (h : Heap) (v : String × String × Addr) :
    HExt h (allocProjCell h v).1 := by
  refine ⟨by simp [allocProjCell], fun a ha => ?_⟩
  refine ⟨rfl, ?_, rfl, rfl⟩
  exact (lookupA_skip a h.next v h.projCells ha.ne').symm

lemma allocProjList_ext (h : Heap) (elems : List Addr) :
    HExt h (allocProjList h elems).1 := by
  refine ⟨by simp [allocProjList], fun a ha => ?_⟩
  refine ⟨?_, rfl, rfl, rfl⟩
  exact (lookupA_skip a h.next elems h.projLists ha.ne').symm

/-- Rebinding an address at or above the bound leaves all bindings below
the bound alone. -/
lemma applyMut_agree (h : Heap) (b : Addr) (mu : Mut) (n : Nat)
    (hb : n ≤ b) : AgreeBelow n h (applyMut h b mu) := by
  intro a ha
  cases mu with
  | mutProjList v =>
    exact ⟨(lookupA_skip a b v h.projLists (lt_of_lt_of_le ha hb).ne').symm, rfl, rfl, rfl⟩
  | mutProjCell v =>
    exact ⟨rfl, (lookupA_skip a b v h.projCells (lt_of_lt_of_le ha hb).ne').symm, rfl, rfl⟩
  | mutTaskList v =>
    exact ⟨rfl, rfl, (lookupA_skip a b v h.taskLists (lt_of_lt_of_le ha hb).ne').symm, rfl⟩
  | mutTaskCell v =>
    exact ⟨rfl, rfl, rfl, (lookupA_skip a b v h.taskCells (lt_of_lt_of_le ha hb).ne').symm⟩

lemma optMapList_congr {f g : Addr → Option α} :
    ∀ {l : List Addr}, (∀ x ∈ l, f x = g x) → optMapList f l = optMapList g l
  | [], _ => rfl
  | a :: as, hfg => by
    rw [optMapList, optMapList, hfg a (by simp),
      optMapList_congr fun x hx => hfg x (by simp [hx])]

lemma optMapList_cons_inv {f : Addr → Option α} {a : Addr} {l : List Addr}
    {vs : List α} (h : optMapList f (a :: l) = some vs) :
    ∃ v vs', f a = some v ∧ optMapList f l = some vs' ∧ vs = v :: vs' := by
  cases hfa : f a with
  | none =>
    simp only [optMapList, hfa] at h
    exact Option.noConfusion h
  | some v =>
    cases hl : optMapList f l with
    | none =>
      simp only [optMapList, hfa, hl] at h
      exact Option.noConfusion h
    | some vs' =>
      simp only [optMapList, hfa, hl, Option.some.injEq] at h
      exact ⟨v, vs', rfl, rfl, h.symm⟩

lemma listFlat_mem {f : α → List β} {l : List α} {x : α} (hx : x ∈ l) :
    ∀ b ∈ f x, b ∈ listFlat f l := by
  induction l with
  | nil => cases hx
  | cons y ys ih =>
    intro b hb
    rcases List.mem_cons.mp hx with rfl | hx2
    · exact List.mem_append.mpr (Or.inl hb)
    · exact List.mem_append.mpr (Or.inr (ih hx2 b hb))

lemma listFlat_reachTask (h : Heap) : ∀ l : List Addr,
    listFlat (reachTask h) l = l
  | [] => rfl
  | x :: xs => by simp [listFlat, reachTask, listFlat_reachTask h xs]

/-- Task view/reach only read bindings below the bound. -/
lemma viewTask_congr (n : Nat) (h h' : Heap) (hag : AgreeBelow n h h')
    (a : Addr) (hb : BelowAll n (reachTask h a)) :
    viewTask h' a = viewTask h a ∧ reachTask h' a = reachTask h a := by
  have ha : a < n := hb a (by simp [reachTask])
  refine ⟨?_, rfl⟩
  unfold viewTask
  rw [← (hag a ha).2.2.2]

/-- Tasks-list view/reach only read bindings among the reachable set. -/
lemma viewTaskList_congr (n : Nat) (h h' : Heap) (hag : AgreeBelow n h h')
    (a : Addr) (hb : BelowAll n (reachTaskList h a)) :
    viewTaskList h' a = viewTaskList h a ∧
    reachTaskList h' a = reachTaskList h a := by
  have ha : a < n := hb a (by simp [reachTaskList])
  have hlk : lookupA a h'.taskLists = lookupA a h.taskLists :=
    ((hag a ha).2.2.1).symm
  cases he : lookupA a h.taskLists with
  | none =>
    rw [he] at hlk
    constructor
    · unfold viewTaskList; rw [hlk, he]; rfl
    · unfold reachTaskList; rw [hlk, he]
  | some elems =>
    rw [he] at hlk
    have helems : ∀ x ∈ elems, x < n := by
      intro x hx
      exact hb x (by simp [reachTaskList, he, hx])
    constructor
    · unfold viewTaskList
      rw [hlk, he]
      show optMapList (viewTask h') elems = optMapList (viewTask h) elems
      refine optMapList_congr fun x hx => ?_
      exact (viewTask_congr n h h' hag x
        (fun b hbb => by
          simp only [reachTask, List.mem_singleton] at hbb
          exact hbb ▸ helems x hx)).1
    · unfold reachTaskList
      rw [hlk, he]

/-- Project view/reach only read bindings among the reachable set. -/
lemma viewProj_congr (n : Nat) (h h' : Heap) (hag : AgreeBelow n h h')
    (a : Addr) (hb : BelowAll n (reachProj h a)) :
    viewProj h' a = viewProj h a ∧ reachProj h' a = reachProj h a := by
  have ha : a < n := hb a (by simp [reachProj])
  have hlk : lookupA a h'.projCells = lookupA a h.projCells :=
    ((hag a ha).2.1).symm
  cases he : lookupA a h.projCells with
  | none =>
    rw [he] at hlk
    constructor
    · unfold viewProj; rw [hlk, he]
    · unfold reachProj; rw [hlk, he]
  | some pc =>
    rw [he] at hlk
    have htl : BelowAll n (reachTaskList h pc.2.2) := by
      intro x hx
      exact hb x (by simp [reachProj, he, hx])
    have hcong := viewTaskList_congr n h h' hag pc.2.2 htl
    constructor
    · unfold viewProj
      rw [hlk, he]
      show (viewTaskList h' pc.2.2).map
          (fun ts => (⟨pc.1, pc.2.1, ts⟩ : ClockifyProject)) =
        (viewTaskList h pc.2.2).map
          (fun ts => (⟨pc.1, pc.2.1, ts⟩ : ClockifyProject))
      rw [hcong.1]
    · unfold reachProj
      rw [hlk, he]
      show a :: reachTaskList h' pc.2.2 = a :: reachTaskList h pc.2.2
      rw [hcong.2]

/-- Catalog view/reach only read bindings among the reachable set. -/
lemma viewProjList_congr (n : Nat) (h h' : Heap) (hag : AgreeBelow n h h')
    (a : Addr) (hb : BelowAll n (reachProjList h a)) :
    viewProjList h' a = viewProjList h a ∧
    reachProjList h' a = reachProjList h a := by
  have ha : a < n := hb a (by simp [reachProjList])
  have hlk : lookupA a h'.projLists = lookupA a h.projLists :=
    ((hag a ha).1).symm
  cases he : lookupA a h.projLists with
  | none =>
    rw [he] at hlk
    constructor
    · unfold viewProjList; rw [hlk, he]; rfl
    · unfold reachProjList; rw [hlk, he]
  | some elems =>
    rw [he] at hlk
    have helem : ∀ x ∈ elems, BelowAll n (reachProj h x) := by
      intro x hx b hbb
      refine hb b ?_
      simp only [reachProjList, he]
      exact List.mem_cons.mpr (Or.inr (listFlat_mem hx b hbb))
    constructor
    · unfold viewProjList
      rw [hlk, he]
      show optMapList (viewProj h') elems = optMapList (viewProj h) elems
      exact optMapList_congr fun x hx =>
        (viewProj_congr n h h' hag x (helem x hx)).1
    · unfold reachProjList
      rw [hlk, he]
      show a :: listFlat (reachProj h') elems =
        a :: listFlat (reachProj h) elems
      rw [listFlat_congr fun x hx =>
        (viewProj_congr n h h' hag x (helem x hx)).2]

/-- Copying a task yields a fresh, value-equal task cell. -/
lemma copyTask_spec (h : Heap) (a : Addr) (v : ClockifyTask)
    (hv : viewTask h a = some v) (_hb : BelowAll h.next (reachTask h a)) :
    ∃ h' a', copyTask h a = some (h', a') ∧ HExt h h' ∧
      viewTask h' a' = some v ∧
      ∀ b ∈ reachTask h' a', h.next ≤ b ∧ b < h'.next := by
  cases hlk : lookupA a h.taskCells with
  | none => rw [viewTask, hlk] at hv; exact Option.noConfusion hv
  | some tc =>
    rw [viewTask, hlk] at hv
    refine ⟨(allocTaskCell h tc).1, h.next, ?_, allocTaskCell_ext h tc, ?_, ?_⟩
    · rw [copyTask, hlk]; rfl
    · rw [viewTask]
      show (lookupA h.next ((h.next, tc) :: h.taskCells)).map
        (fun tc => (⟨tc.1, tc.2⟩ : ClockifyTask)) = some v
      rw [lookupA_head]
      exact hv
    · intro b hbb
      simp only [reachTask, List.mem_singleton] at hbb
      subst hbb
      exact ⟨le_refl _, by simp [allocTaskCell]⟩

/-- The congruence facts for tasks, packaged for `copyAddrs_spec`. -/
lemma reachTask_pack (n : Nat) (h h' : Heap) (hag : AgreeBelow n h h') :
    ∀ a, BelowAll n (reachTask h a) →
      viewTask h' a = viewTask h a ∧ reachTask h' a = reachTask h a :=
  fun a hb => viewTask_congr n h h' hag a hb

/-- Copying a list of addresses in order: the results are fresh, value-equal
and the heap only grows. -/
lemma copyAddrs_spec
    (copyOne : Heap → Addr → Option (Heap × Addr))
    (viewOne : Heap → Addr → Option α)
    (reachOne : Heap → Addr → List Addr)
    (hcopy : ∀ h a v, viewOne h a = some v → BelowAll h.next (reachOne h a) →
      ∃ h' a', copyOne h a = some (h', a') ∧ HExt h h' ∧
        viewOne h' a' = some v ∧
        ∀ b ∈ reachOne h' a', h.next ≤ b ∧ b < h'.next)
    (hcongr : ∀ n h h', AgreeBelow n h h' → ∀ a, BelowAll n (reachOne h a) →
      viewOne h' a = viewOne h a ∧ reachOne h' a = reachOne h a) :
    ∀ (l : List Addr) (h : Heap) (vs : List α),
      optMapList (viewOne h) l = some vs →
      BelowAll h.next (listFlat (reachOne h) l) →
      ∃ h' l', copyAddrs copyOne h l = some (h', l') ∧ HExt h h' ∧
        optMapList (viewOne h') l' = some vs ∧
        ∀ b ∈ listFlat (reachOne h') l', h.next ≤ b ∧ b < h'.next := by
  intro l
  induction l with
  | nil =>
    intro h vs hvs _
    refine ⟨h, [], rfl, ext_refl h, ?_, ?_⟩
    · simpa [optMapList] using hvs
    · intro b hbb; cases hbb
  | cons a as ih =>
    intro h vs hvs hb
    obtain ⟨v, vs', hva, hvas, rfl⟩ := optMapList_cons_inv hvs
    have hba : BelowAll h.next (reachOne h a) := fun b hbb =>
      hb b (List.mem_append.mpr (Or.inl hbb))
    have hbas : BelowAll h.next (listFlat (reachOne h) as) := fun b hbb =>
      hb b (List.mem_append.mpr (Or.inr hbb))
    obtain ⟨h1, a1, hc1, hx1, hv1, hf1⟩ := hcopy h a v hva hba
    have hmem : ∀ x ∈ as, BelowAll h.next (reachOne h x) := by
      intro x hx b hbb
      exact hbas b (listFlat_mem hx b hbb)
    have hcong1 : ∀ x ∈ as,
        viewOne h1 x = viewOne h x ∧ reachOne h1 x = reachOne h x :=
      fun x hx => hcongr h.next h h1 hx1.2 x (hmem x hx)
    have hvas1 : optMapList (viewOne h1) as = some vs' := by
      rw [optMapList_congr fun x hx => (hcong1 x hx).1]
      exact hvas
    have hbas1 : BelowAll h1.next (listFlat (reachOne h1) as) := by
      rw [listFlat_congr fun x hx => (hcong1 x hx).2]
      exact fun b hbb => lt_of_lt_of_le (hbas b hbb) hx1.1
    obtain ⟨h2, l2, hc2, hx2, hv2, hf2⟩ := ih h1 vs' hvas1 hbas1
    refine ⟨h2, a1 :: l2, ?_, ext_trans hx1 hx2, ?_, ?_⟩
    · simp only [copyAddrs, hc1, hc2]
    · have hv1' : viewOne h2 a1 = some v := by
        have := hcongr h1.next h1 h2 hx2.2 a1
          (fun b hbb => (hf1 b hbb).2)
        rw [this.1, hv1]
      rw [optMapList, hv1', hv2]
    · intro b hbb
      have hr1 : reachOne h2 a1 = reachOne h1 a1 :=
        (hcongr h1.next h1 h2 hx2.2 a1 (fun b hbb => (hf1 b hbb).2)).2
      rcases List.mem_append.mp
        (by simpa only [listFlat] using hbb) with hb1 | hb2
      · rw [hr1] at hb1
        have := hf1 b hb1
        exact ⟨this.1, lt_of_lt_of_le this.2 hx2.1⟩
      · have := hf2 b hb2
        exact ⟨le_trans hx1.1 this.1, this.2⟩

/-- Copying a tasks list yields a fresh, value-equal tasks-list object. -/
lemma copyTaskList_spec (h : Heap) (a : Addr) (v : List ClockifyTask)
    (hv : viewTaskList h a = some v)
    (hb : BelowAll h.next (reachTaskList h a)) :
    ∃ h' a', copyTaskList h a = some (h', a') ∧ HExt h h' ∧
      viewTaskList h' a' = some v ∧
      ∀ b ∈ reachTaskList h' a', h.next ≤ b ∧ b < h'.next := by
  cases hlk : lookupA a h.taskLists with
  | none => rw [viewTaskList, hlk] at hv; exact Option.noConfusion hv
  | some elems =>
    rw [viewTaskList, hlk] at hv
    have hv' : optMapList (viewTask h) elems = some v := hv
    have hbe : BelowAll h.next (listFlat (reachTask h) elems) := by
      rw [listFlat_reachTask]
      intro b hbb
      exact hb b (by simp [reachTaskList, hlk, hbb])
    obtain ⟨h1, elems1, hc1, hx1, hv1, hf1⟩ :=
      copyAddrs_spec copyTask viewTask reachTask copyTask_spec
        reachTask_pack elems h v hv' hbe
    refine ⟨(allocTaskList h1 elems1).1, h1.next, ?_,
      ext_trans hx1 (allocTaskList_ext h1 elems1), ?_, ?_⟩
    · simp only [copyTaskList, hlk, hc1]
      rfl
    · rw [viewTaskList]
      show ((lookupA h1.next ((h1.next, elems1) :: h1.taskLists)).bind
        (optMapList (viewTask (allocTaskList h1 elems1).1))) = some v
      rw [lookupA_head]
      show optMapList (viewTask (allocTaskList h1 elems1).1) elems1 = some v
      have hview : ∀ x ∈ elems1,
          viewTask (allocTaskList h1 elems1).1 x = viewTask h1 x := by
        intro x hx
        refine (viewTask_congr h1.next h1 (allocTaskList h1 elems1).1
          (allocTaskList_ext h1 elems1).2 x ?_).1
        intro b hbb
        simp only [reachTask, List.mem_singleton] at hbb
        rw [hbb]
        have hx' : x ∈ listFlat (reachTask h1) elems1 := by
          rw [listFlat_reachTask]; exact hx
        exact (hf1 x hx').2
      rw [optMapList_congr hview]
      exact hv1
    · intro b hbb
      have hre : reachTaskList (allocTaskList h1 elems1).1 h1.next =
          h1.next :: elems1 := by
        rw [reachTaskList]
        show (h1.next ::
          match lookupA h1.next ((h1.next, elems1) :: h1.taskLists) with
          | some es => es
          | none => []) = h1.next :: elems1
        rw [lookupA_head]
      rw [hre] at hbb
      rcases List.mem_cons.mp hbb with rfl | hb2
      · exact ⟨hx1.1, by simp [allocTaskList]⟩
      · have := hf1 b (by rw [listFlat_reachTask]; exact hb2)
        exact ⟨this.1, lt_trans this.2 (by simp [allocTaskList])⟩

/-- Copying a project yields a fresh, value-equal project instance. -/
lemma copyProj_spec (h : Heap) (a : Addr) (v : ClockifyProject)
    (hv : viewProj h a = some v) (hb : BelowAll h.next (reachProj h a)) :
    ∃ h' a', copyProj h a = some (h', a') ∧ HExt h h' ∧
      viewProj h' a' = some v ∧
      ∀ b ∈ reachProj h' a', h.next ≤ b ∧ b < h'.next := by
  cases hlk : lookupA a h.projCells with
  | none => rw [viewProj, hlk] at hv; exact Option.noConfusion hv
  | some pc =>
    have hv2 : (viewTaskList h pc.2.2).map
        (fun ts => (⟨pc.1, pc.2.1, ts⟩ : ClockifyProject)) = some v := by
      rw [viewProj, hlk] at hv
      exact hv
    cases hvt : viewTaskList h pc.2.2 with
    | none =>
      rw [hvt] at hv2
      exact Option.noConfusion hv2
    | some ts =>
      rw [hvt] at hv2
      have hbt : BelowAll h.next (reachTaskList h pc.2.2) := by
        intro b hbb
        exact hb b (by simp [reachProj, hlk, hbb])
      obtain ⟨h1, tl1, hc1, hx1, hv1, hf1⟩ :=
        copyTaskList_spec h pc.2.2 ts hvt hbt
      refine ⟨(allocProjCell h1 (pc.1, pc.2.1, tl1)).1, h1.next, ?_,
        ext_trans hx1 (allocProjCell_ext h1 (pc.1, pc.2.1, tl1)), ?_, ?_⟩
      · simp only [copyProj, hlk, hc1]
        rfl
      · rw [viewProj]
        show (match lookupA h1.next
            ((h1.next, (pc.1, pc.2.1, tl1)) :: h1.projCells) with
          | none => none
          | some pc2 => (viewTaskList (allocProjCell h1 (pc.1, pc.2.1, tl1)).1
              pc2.2.2).map fun ts => ⟨pc2.1, pc2.2.1, ts⟩) = some v
        rw [lookupA_head]
        show (viewTaskList (allocProjCell h1 (pc.1, pc.2.1, tl1)).1 tl1).map
          (fun ts => (⟨pc.1, pc.2.1, ts⟩ : ClockifyProject)) = some v
        rw [(viewTaskList_congr h1.next h1
          (allocProjCell h1 (pc.1, pc.2.1, tl1)).1
          (allocProjCell_ext h1 (pc.1, pc.2.1, tl1)).2 tl1
          (fun b hbb => (hf1 b hbb).2)).1]
        rw [hv1]
        exact hv2
      · intro b hbb
        have hrt : reachTaskList (allocProjCell h1 (pc.1, pc.2.1, tl1)).1 tl1 =
            reachTaskList h1 tl1 :=
          (viewTaskList_congr h1.next h1
            (allocProjCell h1 (pc.1, pc.2.1, tl1)).1
            (allocProjCell_ext h1 (pc.1, pc.2.1, tl1)).2 tl1
            (fun b hbb => (hf1 b hbb).2)).2
        have hre : reachProj (allocProjCell h1 (pc.1, pc.2.1, tl1)).1 h1.next =
            h1.next :: reachTaskList h1 tl1 := by
          rw [reachProj]
          show (h1.next ::
            match lookupA h1.next
              ((h1.next, (pc.1, pc.2.1, tl1)) :: h1.projCells) with
            | some pc2 => reachTaskList
                (allocProjCell h1 (pc.1, pc.2.1, tl1)).1 pc2.2.2
            | none => []) = h1.next :: reachTaskList h1 tl1
          rw [lookupA_head]
          show h1.next :: reachTaskList
            (allocProjCell h1 (pc.1, pc.2.1, tl1)).1 tl1 =
            h1.next :: reachTaskList h1 tl1
          rw [hrt]
        rw [hre] at hbb
        rcases List.mem_cons.mp hbb with rfl | hb2
        · exact ⟨hx1.1, by simp [allocProjCell]⟩
        · have := hf1 b hb2
          exact ⟨this.1, lt_trans this.2 (by simp [allocProjCell])⟩

/-- The congruence facts for projects, packaged for `copyAddrs_spec`. -/
lemma reachProj_pack (n : Nat) (h h' : Heap) (hag : AgreeBelow n h h') :
    ∀ a, BelowAll n (reachProj h a) →
      viewProj h' a = viewProj h a ∧ reachProj h' a = reachProj h a :=
  fun a hb => viewProj_congr n h h' hag a hb

/-- Copying the catalog yields a fresh, value-equal projects-list object:
the heart of `copy.deepcopy(self._projects)`. -/
lemma copyProjList_spec (h : Heap) (a : Addr) (v : List ClockifyProject)
    (hv : viewProjList h a = some v)
    (hb : BelowAll h.next (reachProjList h a)) :
    ∃ h' a', copyProjList h a = some (h', a') ∧ HExt h h' ∧
      viewProjList h' a' = some v ∧
      ∀ b ∈ reachProjList h' a', h.next ≤ b ∧ b < h'.next := by
  cases hlk : lookupA a h.projLists with
  | none => rw [viewProjList, hlk] at hv; exact Option.noConfusion hv
  | some elems =>
    rw [viewProjList, hlk] at hv
    have hv' : optMapList (viewProj h) elems = some v := hv
    have hbe : BelowAll h.next (listFlat (reachProj h) elems) := by
      intro b hbb
      exact hb b (by simp [reachProjList, hlk]; exact Or.inr hbb)
    obtain ⟨h1, elems1, hc1, hx1, hv1, hf1⟩ :=
      copyAddrs_spec copyProj viewProj reachProj copyProj_spec
        reachProj_pack elems h v hv' hbe
    refine ⟨(allocProjList h1 elems1).1, h1.next, ?_,
      ext_trans hx1 (allocProjList_ext h1 elems1), ?_, ?_⟩
    · simp only [copyProjList, hlk, hc1]
      rfl
    · rw [viewProjList]
      show ((lookupA h1.next ((h1.next, elems1) :: h1.projLists)).bind
        (optMapList (viewProj (allocProjList h1 elems1).1))) = some v
      rw [lookupA_head]
      show optMapList (viewProj (allocProjList h1 elems1).1) elems1 = some v
      rw [optMapList_congr fun x hx => (viewProj_congr h1.next h1
        (allocProjList h1 elems1).1 (allocProjList_ext h1 elems1).2 x
        (fun b hbb => (hf1 b (listFlat_mem hx b hbb)).2)).1]
      exact hv1
    · intro b hbb
      have hre : reachProjList (allocProjList h1 elems1).1 h1.next =
          h1.next :: listFlat (reachProj (allocProjList h1 elems1).1)
            elems1 := by
        rw [reachProjList]
        show (h1.next ::
          match lookupA h1.next ((h1.next, elems1) :: h1.projLists) with
          | some es => listFlat (reachProj (allocProjList h1 elems1).1) es
          | none => []) = _
        rw [lookupA_head]
      rw [hre] at hbb
      rcases List.mem_cons.mp hbb with rfl | hb2
      · exact ⟨hx1.1, by simp [allocProjList]⟩
      · rw [listFlat_congr fun x hx => (viewProj_congr h1.next h1
            (allocProjList h1 elems1).1 (allocProjList_ext h1 elems1).2 x
            (fun c hcc => (hf1 c (listFlat_mem hx c hcc)).2)).2] at hb2
        have := hf1 b hb2
        exact ⟨this.1, lt_trans this.2 (by simp [allocProjList])⟩

/-! ## Pagination lemmas for the catalog fetch -/

lemma pageReqsOf_tasksReqs (l : List RawItem) :
    pageReqsOf (l.map fun it => Request.tasksReq it.id) = [] := by
  induction l with
  | nil => rfl
  | cons a t ih =>
    simp only [pageReqsOf, List.map_cons, List.filterMap_cons] at ih ⊢
    exact ih

lemma pageReqsOf_append (l1 l2 : List Request) :
    pageReqsOf (l1 ++ l2) = pageReqsOf l1 ++ pageReqsOf l2 := by
  simp [pageReqsOf, List.filterMap_append]

lemma pageReqsOf_cons_page (n : Nat) (l : List Request) :
    pageReqsOf (Request.pageReq n :: l) = n :: pageReqsOf l := by
  simp [pageReqsOf, List.filterMap_cons]

/-- The list comprehension with all task sub-calls succeeding: one tasks
request per item, and the projects built from the items in order. -/
lemma build_projects_ok (srv : Server) :
    ∀ items : List RawItem,
      (∀ it ∈ items, (srv.projectTasks it.id).status = 200) →
      Clockify.build_projects srv items =
        (items.map fun it => Request.tasksReq it.id,
         Except.ok (items.map (projOfItem srv)))
  | [], _ => rfl
  | it :: rest, h => by
    have hit : (srv.projectTasks it.id).status = 200 := h it (by simp)
    have ihr := build_projects_ok srv rest fun x hx => h x (by simp [hx])
    simp [Clockify.build_projects, Clockify.get_project_tasks, hit, ihr,
      projOfItem, tasksOf]

/-- Arithmetic reshaping of the page-number trace. -/
lemma range_map_shift (a M : Nat) :
    (List.range (M + 1 + 1)).map (fun i => a + i + 1) =
      (a + 1) :: (List.range (M + 1)).map (fun i => a + 1 + i + 1) := by
  rw [List.range_succ_eq_map]
  simp only [List.map_cons, List.map_map, Nat.add_zero]
  congr 1
  exact List.map_congr_left fun i _ => by simp [Function.comp]; omega

/-- Arithmetic reshaping of the concatenated page items. -/
lemma listFlat_range_shift (g : Nat → List α) (M : Nat) :
    listFlat g (List.range (M + 1)) =
      g 0 ++ listFlat (fun i => g (i + 1)) (List.range M) := by
  rw [List.range_succ_eq_map]
  simp only [listFlat, listFlat_map]

/-- Full behaviour of the page loop on a server presenting `M` non-empty
pages after `page` and then an empty page, all with status 200 and all task
sub-calls succeeding: the page requests are `page+1, …, page+M+1` in order
and the outcome is the accumulator followed by the projects built from the
concatenated page items. -/
lemma get_projects_loop_spec (srv : Server) (M : Nat) :
    ∀ (page fuel : Nat) (acc : List ClockifyProject), M < fuel →
      (∀ k, k < M → (srv.projectsPage (page + k + 1)).status = 200 ∧
        (srv.projectsPage (page + k + 1)).items ≠ []) →
      (srv.projectsPage (page + M + 1)).status = 200 →
      (srv.projectsPage (page + M + 1)).items = [] →
      (∀ k, k < M → ∀ it ∈ (srv.projectsPage (page + k + 1)).items,
        (srv.projectTasks it.id).status = 200) →
      pageReqsOf (Clockify.get_projects_loop srv fuel page acc).1 =
        (List.range (M + 1)).map (fun i => page + i + 1) ∧
      (Clockify.get_projects_loop srv fuel page acc).2 =
        some (Except.ok (acc ++
          (listFlat (fun i => (srv.projectsPage (page + i + 1)).items)
            (List.range M)).map (projOfItem srv))) := by
  induction M with
  | zero =>
    intro page fuel acc hfuel _ hstat hempty _
    obtain ⟨f, rfl⟩ : ∃ f, fuel = f + 1 := ⟨fuel - 1, by omega⟩
    simp only [Nat.add_zero] at hstat hempty
    simp [Clockify.get_projects_loop, hstat, hempty, pageReqsOf, listFlat,
      List.range_succ, List.range_zero]
  | succ M ih =>
    intro page fuel acc hfuel hfull hstat hempty htasks
    obtain ⟨f, rfl⟩ : ∃ f, fuel = f + 1 := ⟨fuel - 1, by omega⟩
    have h0 := hfull 0 (by omega)
    simp only [Nat.add_zero] at h0
    have htasks0 := htasks 0 (by omega)
    simp only [Nat.add_zero] at htasks0
    have hb := build_projects_ok srv (srv.projectsPage (page + 1)).items htasks0
    have hlen : 0 < (srv.projectsPage (page + 1)).items.length :=
      List.length_pos.mpr h0.2
    have hfull' : ∀ k, k < M →
        (srv.projectsPage (page + 1 + k + 1)).status = 200 ∧
        (srv.projectsPage (page + 1 + k + 1)).items ≠ [] := by
      intro k hk
      have e : page + 1 + k + 1 = page + (k + 1) + 1 := by omega
      rw [e]
      exact hfull (k + 1) (by omega)
    have hstat' : (srv.projectsPage (page + 1 + M + 1)).status = 200 := by
      have e : page + 1 + M + 1 = page + (M + 1) + 1 := by omega
      rw [e]; exact hstat
    have hempty' : (srv.projectsPage (page + 1 + M + 1)).items = [] := by
      have e : page + 1 + M + 1 = page + (M + 1) + 1 := by omega
      rw [e]; exact hempty
    have htasks' : ∀ k, k < M →
        ∀ it ∈ (srv.projectsPage (page + 1 + k + 1)).items,
        (srv.projectTasks it.id).status = 200 := by
      intro k hk
      have e : page + 1 + k + 1 = page + (k + 1) + 1 := by omega
      rw [e]
      exact htasks (k + 1) (by omega)
    have ihspec := ih (page + 1) f
      (acc ++ (srv.projectsPage (page + 1)).items.map (projOfItem srv))
      (by omega) hfull' hstat' hempty' htasks'
    constructor
    · simp only [Clockify.get_projects_loop, h0.1, hlen, hb, reduceIte, if_true,
        eq_self_iff_true]
      rw [List.cons_append, pageReqsOf_cons_page, pageReqsOf_append,
        pageReqsOf_tasksReqs, List.nil_append, ihspec.1, range_map_shift]
    · simp only [Clockify.get_projects_loop, h0.1, hlen, hb, reduceIte, if_true,
        eq_self_iff_true]
      rw [ihspec.2]
      rw [listFlat_range_shift (fun i => (srv.projectsPage (page + i + 1)).items) M]
      have hcongr : listFlat
          (fun i => (srv.projectsPage (page + 1 + i + 1)).items)
          (List.range M) =
          listFlat (fun i => (srv.projectsPage (page + (i + 1) + 1)).items)
          (List.range M) := by
        refine listFlat_congr fun i _ => ?_
        have e : page + 1 + i + 1 = page + (i + 1) + 1 := by omega
        rw [e]
      rw [hcongr]
      simp [List.map_append, List.append_assoc, Nat.add_zero]

/-- When the comprehension succeeds, every request it issued got a 200. -/
lemma build_projects_ok_status (srv : Server) :
    ∀ (items : List RawItem) (rs : List Request) (ps : List ClockifyProject),
      Clockify.build_projects srv items = (rs, Except.ok ps) →
      ∀ q ∈ rs, (respOf srv q).status = 200 := by
  intro items
  induction items with
  | nil =>
    intro rs ps h
    obtain ⟨he1, _⟩ := Prod.mk.injEq .. ▸ h
    rw [← he1]
    simp
  | cons it rest ih =>
    intro rs ps h
    by_cases hs : (srv.projectTasks it.id).status = 200
    · simp only [Clockify.build_projects, Clockify.get_project_tasks, hs,
        if_true, eq_self_iff_true] at h
      rcases hb : Clockify.build_projects srv rest with ⟨brs, br⟩
      rw [hb] at h
      cases br with
      | error e2 => simp at h
      | ok ps2 =>
        simp only at h
        obtain ⟨he1, _⟩ := Prod.mk.injEq .. ▸ h
        rw [← he1]
        intro q hq
        rcases List.mem_append.mp hq with hq1 | hq2
        · rcases List.mem_singleton.mp hq1 with rfl
          simpa [respOf] using hs
        · exact ih brs ps2 hb q hq2
    · simp only [Clockify.build_projects, Clockify.get_project_tasks, hs,
        if_false, reduceIte] at h
      cases h

/-- Any terminating run of the page loop either saw only 200 responses, or
aborted with the `AttributeError` from a crashed raise — so a run that saw
any failure never returns a project list (no partial catalog). -/
lemma get_projects_loop_err (srv : Server) :
    ∀ (fuel page : Nat) (acc : List ClockifyProject) (rs : List Request)
      (r : Except PyException (List ClockifyProject)),
      Clockify.get_projects_loop srv fuel page acc = (rs, some r) →
      (∀ q ∈ rs, (respOf srv q).status = 200) ∨
      r = Except.error PyException.attributeError := by
  intro fuel
  induction fuel with
  | zero => intro page acc rs r h; cases (Prod.mk.injEq .. ▸ h).2
  | succ fuel ih =>
    intro page acc rs r h
    by_cases hs : (srv.projectsPage (page + 1)).status = 200
    · by_cases hl : 0 < (srv.projectsPage (page + 1)).items.length
      · rcases hb : Clockify.build_projects srv
            (srv.projectsPage (page + 1)).items with ⟨brs, br⟩
        cases br with
        | error e =>
          simp only [Clockify.get_projects_loop, hs, hl, hb, if_true,
            eq_self_iff_true, reduceIte] at h
          obtain ⟨_, he2⟩ := Prod.mk.injEq .. ▸ h
          cases e
          exact Or.inr (Option.some.injEq .. ▸ he2).symm
        | ok ps =>
          simp only [Clockify.get_projects_loop, hs, hl, hb, if_true,
            eq_self_iff_true, reduceIte] at h
          obtain ⟨he1, he2⟩ := Prod.mk.injEq .. ▸ h
          rcases hrec : Clockify.get_projects_loop srv fuel (page + 1)
              (acc ++ ps) with ⟨rrs, rout⟩
          rw [hrec] at he1 he2
          simp only at he1 he2
          rcases ih (page + 1) (acc ++ ps) rrs r (by rw [hrec, he2]) with
            hall | herr
          · refine Or.inl ?_
            rw [← he1]
            intro q hq
            rcases List.mem_append.mp hq with hq0 | hqr
            · rcases List.mem_cons.mp hq0 with rfl | hqb
              · simpa [respOf] using hs
              · exact build_projects_ok_status srv _ brs ps hb q hqb
            · exact hall q hqr
          · exact Or.inr herr
      · simp only [Clockify.get_projects_loop, hs, hl, if_true,
          eq_self_iff_true, reduceIte] at h
        obtain ⟨he1, _⟩ := Prod.mk.injEq .. ▸ h
        refine Or.inl ?_
        rw [← he1]
        intro q hq
        rcases List.mem_singleton.mp hq with rfl
        simpa [respOf] using hs
    · simp only [Clockify.get_projects_loop, hs, if_false, reduceIte] at h
      obtain ⟨_, he2⟩ := Prod.mk.injEq .. ▸ h
      exact Or.inr (Option.some.injEq .. ▸ he2).symm

/-! ## Claims about the timer controller -/

/-- Claim C1 is false on the code: two press signals in immediate succession
for the same binding, with no stop in between, produce two `startEntry`
(POST) calls, not one — `on_data_handler` calls `start_timer`
unconditionally on every press; there is no Running-state gate. -/
theorem c1_counterexample :
    countPosts (runEvents cfgDemo
      [(⟨"T0", 201, ⟨200, 200, [], 200⟩⟩, pressData),
       (⟨"T1", 201, ⟨200, 200, [], 200⟩⟩, pressData)] ⟨none⟩).2 = 2 ∧
    countPosts (runEvents cfgDemo
      [(⟨"T0", 201, ⟨200, 200, [], 200⟩⟩, pressData),
       (⟨"T1", 201, ⟨200, 200, [], 200⟩⟩, pressData)] ⟨none⟩).2 ≠ 1 := by
  constructor <;> decide

/-- Claim C1 (amended): every press signal unconditionally issues one
`startEntry` call, so two press signals in immediate succession issue
exactly two `startEntry` calls — the second is not ignored. -/
theorem c1_amended_each_press_posts (cfg : Config) (e1 e2 : HidEnv)
    (d1 d2 : List Nat) (st : TimerState)
    (h1 : d1.getD 8 0 = 16) (h2 : d2.getD 8 0 = 16) :
    countPosts (runEvents cfg [(e1, d1), (e2, d2)] st).2 = 2 := by
  have h1' : d1[8]?.getD 0 = 16 := by simpa using h1
  have h2' : d2[8]?.getD 0 = 16 := by simpa using h2
  simp [runEvents, on_data_handler, h1', h2', start_timer, countPosts,
    isPost, List.filter]

/-- Witness for the amended C1 at a concrete pair of press reports. -/
theorem c1_amended_each_press_posts_witness :
    pressData.getD 8 0 = 16 ∧
    countPosts (runEvents cfgDemo
      [(⟨"T0", 201, ⟨200, 200, [], 200⟩⟩, pressData),
       (⟨"T1", 201, ⟨200, 200, [], 200⟩⟩, pressData)] ⟨none⟩).2 = 2 :=
  ⟨by decide,
   c1_amended_each_press_posts cfgDemo ⟨"T0", 201, ⟨200, 200, [], 200⟩⟩
     ⟨"T1", 201, ⟨200, 200, [], 200⟩⟩ pressData pressData ⟨none⟩
     (by decide) (by decide)⟩

/-- Claim C2: a release whose in-progress query returns an empty list issues
no `stopEntry` (PUT) call and returns normally with the state unchanged;
consequently two releases in a row — the first stopping a running entry, the
second finding none running — issue exactly one `stopEntry` call in total. -/
theorem c2_idempotent_stop (st : TimerState) (ps1 ps2 : Nat)
    (now1 now2 : String) (e : RemoteEntry) (rest : List RemoteEntry) :
    (stop_timer ⟨200, 200, [], ps1⟩ now1 st =
      (st, [ApiCall.getUser, ApiCall.getRunning]) ∧
     countPuts (stop_timer ⟨200, 200, [], ps1⟩ now1 st).2 = 0) ∧
    countPuts ((stop_timer ⟨200, 200, e :: rest, 200⟩ now1 st).2 ++
      (stop_timer ⟨200, 200, [], ps2⟩ now2
        (stop_timer ⟨200, 200, e :: rest, 200⟩ now1 st).1).2) = 1 := by
  refine ⟨⟨?_, ?_⟩, ?_⟩ <;>
    simp [stop_timer, countPuts, isPut, List.filter]

/-- Claim C3 is what the code should do, and the code deviates: on a failed
`startEntry` (status 400 ≠ 201) the controller does not return to its prior
state — `start_timer` assigns `_start_time` before the POST and never rolls
it back, so a recorded start-time belief survives the failure.  The retry
half of the claim does hold: the next press issues `startEntry` again. -/
theorem c3_failed_start_keeps_new_start_time :
    (start_timer cfgDemo "T0" ⟨none⟩ 400).1.start_time = some "T0" ∧
    (start_timer cfgDemo "T0" ⟨none⟩ 400).1 ≠ (⟨none⟩ : TimerState) ∧
    countPosts (start_timer cfgDemo "T0" ⟨none⟩ 400).2 = 1 ∧
    countPosts (start_timer cfgDemo "T1"
      (start_timer cfgDemo "T0" ⟨none⟩ 400).1 201).2 = 1 := by
  refine ⟨?_, ?_, ?_, ?_⟩ <;> decide

/-- Claim C4 is false on the code: on a fresh process a release that finds a
remote in-progress entry (which reports start time `"R0"`) issues its single
`stopEntry` call with start field `None` — the local `_start_time` — not the
remote-reported start time. -/
theorem c4_counterexample :
    putStartFields (stop_timer ⟨200, 200, [⟨"e1", "R0"⟩], 200⟩ "T1"
      ⟨none⟩).2 = [none] ∧
    (none : Option String) ≠ some "R0" := by
  constructor <;> decide

/-- Claim C4 (amended): on a fresh process (`_start_time = None`), a release
while the remote reports in-progress entries issues exactly one `stopEntry`
call, targeting the first reported entry, whose start field is the local
`_start_time` (`None`), not the remote-reported start time; the local state
is unchanged afterwards (still no recorded session). -/
theorem c4_amended_fresh_stop_uses_local_start (e : RemoteEntry)
    (rest : List RemoteEntry) (now : String) (ps : Nat) :
    stop_timer ⟨200, 200, e :: rest, ps⟩ now ⟨none⟩ =
      (⟨none⟩, [ApiCall.getUser, ApiCall.getRunning,
        ApiCall.putTimeEntry e.id
          ⟨none, now, PROJ_ID_DEFAULT, TASK_ID_DEFAULT⟩]) := by
  simp [stop_timer]

/-- Claim C5 is false on the code: after a successful `stopEntry` call
(one PUT issued, status 200) the recorded start time is still `some "T0"`,
not cleared. -/
theorem c5_counterexample :
    countPuts (stop_timer ⟨200, 200, [⟨"e1", "R0"⟩], 200⟩ "T1"
      ⟨some "T0"⟩).2 = 1 ∧
    (stop_timer ⟨200, 200, [⟨"e1", "R0"⟩], 200⟩ "T1"
      ⟨some "T0"⟩).1.start_time = some "T0" ∧
    some "T0" ≠ (none : Option String) := by
  refine ⟨?_, ?_, ?_⟩ <;> decide

/-- Claim C5 (amended): `stop_timer` never modifies the recorded start time
on any path — in particular a successful `stopEntry` leaves the stale local
start-time belief in place (it is never cleared). -/
theorem c5_amended_stop_never_clears (env : StopEnv) (now : String)
    (st : TimerState) : (stop_timer env now st).1 = st := by
  unfold stop_timer
  split
  · rfl
  · split
    · rfl
    · cases env.entries <;> rfl

/-- Claim C6: on a server presenting `N` successive non-empty project pages
followed by an empty page, all with status 200 and with every task sub-call
succeeding, `Clockify.get_projects` issues exactly the page requests
`1, 2, …, N+1` in order and returns the projects built from the
concatenation of all page items in order.  `fuel` bounds the embedded
`while True` loop; any bound beyond `N` yields this same terminating run. -/
theorem c6_pagination (srv : Server) (N fuel : Nat) (hfuel : N < fuel)
    (hfull : ∀ k, k < N → (srv.projectsPage (k + 1)).status = 200 ∧
      (srv.projectsPage (k + 1)).items ≠ [])
    (hlast : (srv.projectsPage (N + 1)).status = 200)
    (hempty : (srv.projectsPage (N + 1)).items = [])
    (htasks : ∀ k, k < N → ∀ it ∈ (srv.projectsPage (k + 1)).items,
      (srv.projectTasks it.id).status = 200) :
    pageReqsOf (Clockify.get_projects srv fuel).1 =
      (List.range (N + 1)).map (fun i => i + 1) ∧
    (Clockify.get_projects srv fuel).2 =
      some (Except.ok ((pagesItems srv N).map (projOfItem srv))) := by
  have h := get_projects_loop_spec srv N 0 fuel [] hfuel
    (fun k hk => by simpa using hfull k hk)
    (by simpa using hlast) (by simpa using hempty)
    (fun k hk => by simpa using htasks k hk)
  simp only [Nat.zero_add] at h
  unfold Clockify.get_projects
  refine ⟨h.1, ?_⟩
  rw [h.2]
  simp [pagesItems]

/-- Witness for C6 with `N = 1`: two page requests and the single project
with its task. -/
theorem c6_pagination_witness :
    (1 : Nat) < 2 ∧
    pageReqsOf (Clockify.get_projects srvDemo 2).1 =
      (List.range (1 + 1)).map (fun i => i + 1) ∧
    (Clockify.get_projects srvDemo 2).2 =
      some (Except.ok ((pagesItems srvDemo 1).map (projOfItem srvDemo))) :=
  ⟨by decide,
   c6_pagination srvDemo 1 2 (by decide) (by decide) (by decide) (by decide)
     (by decide)⟩

/-- Claim C7 is the intended contract and the code deviates: at a failing
input — page 1 responds 500 with body `"boom"` — the fetch does abort
immediately after the failing request and returns no project list (no
partial catalog), but what propagates is the bare `AttributeError` raised
while the `RuntimeError` message was being formatted
(`response.text.decode()` on a `str`), which carries neither the response
status (500) nor its body (`"boom"`). -/
theorem c7_failing_raise_loses_status_and_body :
    Clockify.get_projects srvFail 1 =
      ([Request.pageReq 1],
        some (Except.error PyException.attributeError)) ∧
    (respOf srvFail (Request.pageReq 1)).status = 500 ∧
    (respOf srvFail (Request.pageReq 1)).text = "boom" ∧
    (∀ ps : List ClockifyProject,
      (Clockify.get_projects srvFail 1).2 ≠ some (Except.ok ps)) := by
  refine ⟨rfl, rfl, rfl, ?_⟩
  intro ps h
  have h2 : some (Except.error PyException.attributeError) =
      some (Except.ok ps) := h
  injection h2 with h3
  exact Except.noConfusion h3

/-- Claim C10: when the in-progress query returns more than one entry,
`stop_timer` issues exactly one `stopEntry` call, targeting the first entry
of the list; the remaining entries are untouched (no other PUT mentions
them). -/
theorem c10_first_entry_only (st : TimerState) (now : String)
    (e e2 : RemoteEntry) (rest : List RemoteEntry) (ps : Nat) :
    putCalls (stop_timer ⟨200, 200, e :: e2 :: rest, ps⟩ now st).2 =
      [ApiCall.putTimeEntry e.id
        ⟨st.start_time, now, PROJ_ID_DEFAULT, TASK_ID_DEFAULT⟩] := by
  simp [stop_timer, putCalls, isPut, List.filter]

/-- Claim C8: `Model.get_projects` returns a value equal to the stored
catalog, and `Model.get_tasks_for_project` one equal to the given project's
task list, each as an independent deep copy: the store's root and its
visible value are unchanged by the read, and rebinding any address
reachable from the returned copy (any mutation of the returned value)
leaves the store's catalog untouched.  Before any fetch completes the
stored catalog is the empty list. -/
theorem c8_reads_are_isolated_copies (m : ModelState)
    (ps : List ClockifyProject) (p : Addr) (pc : String × String × Addr)
    (ts : List ClockifyTask)
    (hv : viewProjList m.heap m.projectsRoot = some ps)
    (hr : BelowAll m.heap.next (reachProjList m.heap m.projectsRoot))
    (hp : lookupA p m.heap.projCells = some pc)
    (hvt : viewTaskList m.heap pc.2.2 = some ts)
    (hrt : BelowAll m.heap.next (reachTaskList m.heap pc.2.2)) :
    (∃ a m', Model.get_projects m = some (a, m') ∧
      viewProjList m'.heap a = some ps ∧
      m'.projectsRoot = m.projectsRoot ∧
      viewProjList m'.heap m.projectsRoot = some ps ∧
      ∀ b ∈ reachProjList m'.heap a, ∀ mu,
        viewProjList (applyMut m'.heap b mu) m.projectsRoot = some ps) ∧
    (∃ a m', Model.get_tasks_for_project p m = some (a, m') ∧
      viewTaskList m'.heap a = some ts ∧
      m'.projectsRoot = m.projectsRoot ∧
      viewProjList m'.heap m.projectsRoot = some ps ∧
      ∀ b ∈ reachTaskList m'.heap a, ∀ mu,
        viewProjList (applyMut m'.heap b mu) m.projectsRoot = some ps) ∧
    viewProjList Model.initState.heap Model.initState.projectsRoot =
      some [] := by
  refine ⟨?_, ?_, rfl⟩
  · obtain ⟨h1, a1, hc, hx, hv1, hf⟩ :=
      copyProjList_spec m.heap m.projectsRoot ps hv hr
    have hroot :=
      viewProjList_congr m.heap.next m.heap h1 hx.2 m.projectsRoot hr
    refine ⟨a1, { m with heap := h1 }, ?_, hv1, rfl, ?_, ?_⟩
    · unfold Model.get_projects
      rw [hc]
      rfl
    · show viewProjList h1 m.projectsRoot = some ps
      rw [hroot.1]
      exact hv
    · intro b hbb mu
      show viewProjList (applyMut h1 b mu) m.projectsRoot = some ps
      have hagm := applyMut_agree h1 b mu m.heap.next (hf b hbb).1
      have hr1 : BelowAll m.heap.next (reachProjList h1 m.projectsRoot) := by
        rw [hroot.2]
        exact hr
      rw [(viewProjList_congr m.heap.next h1 (applyMut h1 b mu) hagm
        m.projectsRoot hr1).1, hroot.1]
      exact hv
  · obtain ⟨h1, a1, hc, hx, hv1, hf⟩ :=
      copyTaskList_spec m.heap pc.2.2 ts hvt hrt
    have hroot :=
      viewProjList_congr m.heap.next m.heap h1 hx.2 m.projectsRoot hr
    refine ⟨a1, { m with heap := h1 }, ?_, hv1, rfl, ?_, ?_⟩
    · simp only [Model.get_tasks_for_project, hp, hc]
    · show viewProjList h1 m.projectsRoot = some ps
      rw [hroot.1]
      exact hv
    · intro b hbb mu
      show viewProjList (applyMut h1 b mu) m.projectsRoot = some ps
      have hagm := applyMut_agree h1 b mu m.heap.next (hf b hbb).1
      have hr1 : BelowAll m.heap.next (reachProjList h1 m.projectsRoot) := by
        rw [hroot.2]
        exact hr
      rw [(viewProjList_congr m.heap.next h1 (applyMut h1 b mu) hagm
        m.projectsRoot hr1).1, hroot.1]
      exact hv

/-- Witness for C8 at the one-project demonstration state. -/
theorem c8_reads_are_isolated_copies_witness :
    (viewProjList mDemo.heap mDemo.projectsRoot =
        some [⟨"p1", "Website", [⟨"t1", "Design"⟩]⟩] ∧
      lookupA 2 mDemo.heap.projCells = some ("p1", "Website", 1)) ∧
    ((∃ a m', Model.get_projects mDemo = some (a, m') ∧
      viewProjList m'.heap a =
        some [⟨"p1", "Website", [⟨"t1", "Design"⟩]⟩] ∧
      m'.projectsRoot = mDemo.projectsRoot ∧
      viewProjList m'.heap mDemo.projectsRoot =
        some [⟨"p1", "Website", [⟨"t1", "Design"⟩]⟩] ∧
      ∀ b ∈ reachProjList m'.heap a, ∀ mu,
        viewProjList (applyMut m'.heap b mu) mDemo.projectsRoot =
          some [⟨"p1", "Website", [⟨"t1", "Design"⟩]⟩]) ∧
    (∃ a m', Model.get_tasks_for_project 2 mDemo = some (a, m') ∧
      viewTaskList m'.heap a = some [⟨"t1", "Design"⟩] ∧
      m'.projectsRoot = mDemo.projectsRoot ∧
      viewProjList m'.heap mDemo.projectsRoot =
        some [⟨"p1", "Website", [⟨"t1", "Design"⟩]⟩] ∧
      ∀ b ∈ reachTaskList m'.heap a, ∀ mu,
        viewProjList (applyMut m'.heap b mu) mDemo.projectsRoot =
          some [⟨"p1", "Website", [⟨"t1", "Design"⟩]⟩]) ∧
    viewProjList Model.initState.heap Model.initState.projectsRoot =
      some []) :=
  ⟨⟨by decide, by decide⟩,
   c8_reads_are_isolated_copies mDemo
     [⟨"p1", "Website", [⟨"t1", "Design"⟩]⟩] 2 ("p1", "Website", 1)
     [⟨"t1", "Design"⟩] (by decide) (by unfold BelowAll; decide) (by decide)
     (by decide) (by unfold BelowAll; decide)⟩

/-- Claim C9: when the background fetch fails, the callback never runs: the
model state is exactly what it was before the fetch (in particular the
stored catalog is unchanged), zero observer notifications fire, and a
subsequent read still succeeds and returns that same catalog. -/
theorem c9_failed_fetch_is_silent (m : ModelState) (e : PyException)
    (ps : List ClockifyProject)
    (hv : viewProjList m.heap m.projectsRoot = some ps)
    (hr : BelowAll m.heap.next (reachProjList m.heap m.projectsRoot)) :
    GetProjectsAndTasks.run (Except.error e) m = (m, 0) ∧
    (∃ a m', Model.get_projects
        (GetProjectsAndTasks.run (Except.error e) m).1 = some (a, m') ∧
      viewProjList m'.heap a = some ps) := by
  refine ⟨rfl, ?_⟩
  obtain ⟨h1, a1, hc, _hx, hv1, _hf⟩ :=
    copyProjList_spec m.heap m.projectsRoot ps hv hr
  refine ⟨a1, { m with heap := h1 }, ?_, hv1⟩
  show Model.get_projects m = some (a1, { m with heap := h1 })
  unfold Model.get_projects
  rw [hc]
  rfl

/-- Witness for C9 at the one-project demonstration state. -/
theorem c9_failed_fetch_is_silent_witness :
    (viewProjList mDemo.heap mDemo.projectsRoot =
      some [⟨"p1", "Website", [⟨"t1", "Design"⟩]⟩]) ∧
    GetProjectsAndTasks.run (Except.error PyException.attributeError)
        mDemo = (mDemo, 0) ∧
    (∃ a m', Model.get_projects
        (GetProjectsAndTasks.run (Except.error PyException.attributeError)
          mDemo).1 = some (a, m') ∧
      viewProjList m'.heap a =
        some [⟨"p1", "Website", [⟨"t1", "Design"⟩]⟩]) :=
  ⟨by decide,
   c9_failed_fetch_is_silent mDemo PyException.attributeError
     [⟨"p1", "Website", [⟨"t1", "Design"⟩]⟩] (by decide)
     (by unfold BelowAll; decide)⟩
